import Mathlib

/-!
Verification development for the Typer repository (src/src/main.rs).

The typing engine is embedded shallowly: the process-wide RNG stream is
modelled as an abstract entropy source (a function from draw index to a raw
natural number), and each call into the `rand` crate consumes one value of the
stream.  `gen_range(lo..hi)` is modelled as `lo + v % (hi - lo)` and
`gen_ratio(n, d)` as `v % d < n`, the uniform interpretations of a raw draw;
a Rust panic (sampling an empty range, a zero denominator, or a numerator
larger than the denominator) is modelled as `Except.error ()`.  The key
actions sent to the `enigo` collaborator, together with the `thread::sleep`
calls, are collected into a trace.
-/

namespace Typer

/-- Abstract entropy source: the value produced by the process-wide RNG at
each successive draw. -/
def Entropy : Type := Nat → Nat

/-- State of the RNG stream: the entropy source together with the index of
the next draw. -/
structure RngState where
  e : Entropy
  k : Nat

/-- Consume one draw. -/
def RngState.advance (s : RngState) : RngState := ⟨s.e, s.k + 1⟩

/-- The raw value of the next draw. -/
def RngState.val (s : RngState) : Nat := s.e s.k

/-- Model of `rand`'s `Rng::gen_ratio(n, d)`: returns `true` with probability
`n/d`; panics (here `Except.error ()`) when `d = 0` or `n > d`. -/
def genRatioDraw (n d : Nat) (s : RngState) : Except Unit (Bool × RngState) :=
  if d = 0 ∨ d < n then .error ()
  else .ok (decide (s.val % d < n), s.advance)

/-- Model of `rand`'s `Rng::gen_range(lo..hi)` on a half-open range: returns
a value in `[lo, hi)`; panics (here `Except.error ()`) when the range is
empty, i.e. `hi ≤ lo`. -/
def genRangeDraw (r : Nat × Nat) (s : RngState) : Except Unit (Nat × RngState) :=
  if r.2 ≤ r.1 then .error ()
  else .ok (r.1 + s.val % (r.2 - r.1), s.advance)

/-- The `TypingConfig` struct from main.rs: each `Range<u64>` field is a pair
(inclusive lower bound, exclusive upper bound). -/
structure TypingConfig where
  base_delay : Nat × Nat
  thinking_delay : Nat × Nat
  mistake_probability : Nat
  correction_delay : Nat × Nat
  long_pause_probability : Nat
  long_pause_delay : Nat × Nat

/-- Model of `TypingConfig::default()` from main.rs. -/
def TypingConfig.default : TypingConfig :=
  { base_delay := (20, 100)
    thinking_delay := (500, 1500)
    mistake_probability := 10
    correction_delay := (300, 700)
    long_pause_probability := 5
    long_pause_delay := (1000, 3000) }

/-- The adjacency table built by `KeyboardLayout::new()`, as the list of
`insert` calls (keys are distinct, so lookup order is irrelevant). -/
def layout : List (Char × List Char) :=
  [ ('a', ['s', 'q', 'w', 'z'])
  , ('b', ['v', 'n', 'h', 'g'])
  , ('c', ['x', 'v', 'd', 'f'])
  , ('d', ['s', 'f', 'e', 'r'])
  , ('e', ['w', 'r', 'd', 'f'])
  , ('f', ['d', 'g', 'r', 't'])
  , ('g', ['f', 'h', 't', 'y'])
  , ('h', ['g', 'j', 'y', 'u'])
  , ('i', ['u', 'o', 'k', 'l'])
  , ('j', ['h', 'k', 'u', 'i'])
  , ('k', ['j', 'l', 'i', 'o'])
  , ('l', ['k', ';', 'o', 'p'])
  , ('m', ['n', ',', 'j', 'k'])
  , ('n', ['b', 'm', 'h', 'j'])
  , ('o', ['i', 'p', 'k', 'l'])
  , ('p', ['o', '[', 'l', ';'])
  , ('q', ['w', 'a', '1', '2'])
  , ('r', ['e', 't', 'd', 'f'])
  , ('s', ['a', 'd', 'w', 'e'])
  , ('t', ['r', 'y', 'f', 'g'])
  , ('u', ['y', 'i', 'h', 'j'])
  , ('v', ['c', 'b', 'f', 'g'])
  , ('w', ['q', 'e', 'a', 's'])
  , ('x', ['z', 'c', 's', 'd'])
  , ('y', ['t', 'u', 'g', 'h'])
  , ('z', ['a', 'x', 's', 'd']) ]

/-- Association-list lookup, modelling `HashMap::get` on the table above. -/
def lookupNearby : List (Char × List Char) → Char → Option (List Char)
  | [], _ => none
  | (k, v) :: rest, c => if c = k then some v else lookupNearby rest c

/-- The `nearby_keys` map of `KeyboardLayout`. -/
def nearby_keys (c : Char) : Option (List Char) := lookupNearby layout c

/-- Model of `KeyboardLayout::get_nearby_key`.  `to_ascii_lowercase` is `Char.toLower`
(both touch only `A`-`Z`); `choose` consumes one RNG draw and picks a uniform
index; `unwrap_or(&c_lower)` can only fire on an empty list; the original
character's case is reapplied with `to_ascii_uppercase` when `c` is
uppercase (the lookup succeeding forces `c` to be an ASCII letter, where
Rust's Unicode `is_uppercase` and `Char.isUpper` agree). -/
def get_nearby_key (c : Char) (s : RngState) : Char × RngState :=
  let c_lower := c.toLower
  match nearby_keys c_lower with
  | some nearby =>
      let result := nearby.getD (s.val % nearby.length) c_lower
      (if c.isUpper then result.toUpper else result, s.advance)
  | none => (c, s)

/-- One observable step of the engine: a key action sent to `enigo`, or a
`thread::sleep`, tagged with the config range the duration was drawn from. -/
inductive Action where
  | emit (c : Char)
  | keyReturn
  | backspace
  | sleepBase (d : Nat)
  | sleepThinking (d : Nat)
  | sleepCorrection (d : Nat)
  | sleepLongPause (d : Nat)
  deriving DecidableEq, Repr

/-- The punctuation set `".,?!;:"` checked for the long pause. -/
def longPauseChars : List Char := ['.', ',', '?', '!', ';', ':']

/-- Model of `HumanTypist::type_character`: a 1-in-`mistake_probability` trial; on
success emit the nearby key, sleep a correction-delay duration, click
Backspace, and emit the intended character; on failure emit the intended
character directly. -/
def type_character (cfg : TypingConfig) (intended_char : Char) (s : RngState) :
    Except Unit (List Action × RngState) := do
  let (mistake, s1) ← genRatioDraw 1 cfg.mistake_probability s
  if mistake then
    let g := get_nearby_key intended_char s1
    let (d, s3) ← genRangeDraw cfg.correction_delay g.2
    return ([.emit g.1, .sleepCorrection d, .backspace, .emit intended_char], s3)
  else
    return ([.emit intended_char], s1)

/-- The `match c` arms for `'\n'` and for a printable character in
`HumanTypist::type_text` (everything the loop body does before the trailing
base-delay sleep; the `'\r'` arm is handled in `type_text_step`). -/
def char_branch (cfg : TypingConfig) (c : Char) (s : RngState) :
    Except Unit (List Action × RngState) := do
  if c = '\n' then
    let (d, s1) ← genRangeDraw cfg.thinking_delay s
    return ([.keyReturn, .sleepThinking d], s1)
  else
    let (pause, s1) ← genRatioDraw 1 100 s
    let (acts0, s2) ←
      if pause ∧ c.isWhitespace then do
        let (d, s2) ← genRangeDraw cfg.thinking_delay s1
        pure ([Action.sleepThinking d], s2)
      else
        pure ([], s1)
    let (acts1, s3) ← type_character cfg c s2
    let (long, s4) ← genRatioDraw cfg.long_pause_probability 100 s3
    let (acts2, s5) ←
      if long ∧ longPauseChars.contains c then do
        let (d, s5) ← genRangeDraw cfg.long_pause_delay s4
        pure ([Action.sleepLongPause d], s5)
      else
        pure ([], s4)
    return (acts0 ++ acts1 ++ acts2, s5)

/-- The body of the `for c in text.chars()` loop of `HumanTypist::type_text`:
the `match` on the character followed by the base-delay sleep; `'\r'` hits
`continue`, which skips the base-delay sleep as well. -/
def type_text_step (cfg : TypingConfig) (c : Char) (s : RngState) :
    Except Unit (List Action × RngState) :=
  if c = '\r' then .ok ([], s)
  else do
    let (acts, s1) ← char_branch cfg c s
    let (db, s2) ← genRangeDraw cfg.base_delay s1
    return (acts ++ [.sleepBase db], s2)

/-- The loop of `HumanTypist::type_text` over the characters of the text. -/
def type_text_go (cfg : TypingConfig) : List Char → RngState →
    Except Unit (List Action × RngState)
  | [], s => .ok ([], s)
  | c :: cs, s => do
      let (a, s1) ← type_text_step cfg c s
      let (rest, s2) ← type_text_go cfg cs s1
      return (a ++ rest, s2)

/-- Model of `HumanTypist::type_text` on a string. -/
def type_text (cfg : TypingConfig) (text : String) (s : RngState) :
    Except Unit (List Action × RngState) :=
  type_text_go cfg text.data s

/-- The trace of a run started at draw index 0, discarding the final RNG
state (used to state decidable facts about concrete runs). -/
def run (cfg : TypingConfig) (text : String) (e : Entropy) :
    Except Unit (List Action) :=
  (type_text cfg text ⟨e, 0⟩).map Prod.fst

/-- Key actions (character emissions, Return clicks, Backspace clicks), as
opposed to sleeps. -/
def isEmission : Action → Bool
  | .emit _ => true
  | .keyReturn => true
  | .backspace => true
  | _ => false

/-- The single key action the engine owes a given input character when no
mistake fires: nothing for a carriage return, a Return click for a newline,
the character itself otherwise. -/
def specEmission (c : Char) : Option Action :=
  if c = '\r' then none
  else if c = '\n' then some .keyReturn
  else some (.emit c)

/-- The last character emission of a trace, if any. -/
def lastEmittedChar (tr : List Action) : Option Char :=
  (tr.filterMap fun a => match a with | .emit c => some c | _ => none).getLast?

/-- Number of base-delay sleeps in a trace. -/
def countBaseSleeps (tr : List Action) : Nat :=
  (tr.filter fun a => match a with | .sleepBase _ => true | _ => false).length

/-! ### Config persistence (the `Config` struct, serde_json, and the loaders) -/

/-- The serializable `Config` struct from main.rs.  `u64` fields are `Nat`
values below `2^64` and the `u32` fields below `2^32`; the bounds are
enforced where the source's types enforce them (deserialization). -/
structure Config where
  base_delay_min : Nat
  base_delay_max : Nat
  thinking_delay_min : Nat
  thinking_delay_max : Nat
  mistake_probability : Nat
  correction_delay_min : Nat
  correction_delay_max : Nat
  long_pause_probability : Nat
  long_pause_delay_min : Nat
  long_pause_delay_max : Nat
  deriving DecidableEq, Repr

/-- Model of `Config::default()` from main.rs. -/
def Config.default : Config :=
  { base_delay_min := 20
    base_delay_max := 100
    thinking_delay_min := 500
    thinking_delay_max := 1500
    mistake_probability := 10
    correction_delay_min := 300
    correction_delay_max := 700
    long_pause_probability := 5
    long_pause_delay_min := 1000
    long_pause_delay_max := 3000 }

/-- Model of `Config::to_typing_config`. -/
def Config.to_typing_config (c : Config) : TypingConfig :=
  { base_delay := (c.base_delay_min, c.base_delay_max)
    thinking_delay := (c.thinking_delay_min, c.thinking_delay_max)
    mistake_probability := c.mistake_probability
    correction_delay := (c.correction_delay_min, c.correction_delay_max)
    long_pause_probability := c.long_pause_probability
    long_pause_delay := (c.long_pause_delay_min, c.long_pause_delay_max) }

/-- One `"name": value` line of serde_json's pretty output (two-space
indent). -/
def fieldLine (name : String) (v : Nat) : String :=
  "  \"" ++ name ++ "\": " ++ toString v

/-- Model of `serde_json::to_string_pretty` on a `Config` value: a JSON
object with two-space indentation, fields in struct declaration order,
`": "` separators, and no trailing newline. -/
def configToPrettyJson (c : Config) : String :=
  "\x7b\n" ++
    String.intercalate ",\n"
      [ fieldLine "base_delay_min" c.base_delay_min
      , fieldLine "base_delay_max" c.base_delay_max
      , fieldLine "thinking_delay_min" c.thinking_delay_min
      , fieldLine "thinking_delay_max" c.thinking_delay_max
      , fieldLine "mistake_probability" c.mistake_probability
      , fieldLine "correction_delay_min" c.correction_delay_min
      , fieldLine "correction_delay_max" c.correction_delay_max
      , fieldLine "long_pause_probability" c.long_pause_probability
      , fieldLine "long_pause_delay_min" c.long_pause_delay_min
      , fieldLine "long_pause_delay_max" c.long_pause_delay_max ]
    ++ "\n\x7d"

/-- JSON whitespace skipping. -/
def skipWs : List Char → List Char
  | [] => []
  | c :: rest =>
      if c = ' ' ∨ c = '\n' ∨ c = '\t' ∨ c = '\r' then skipWs rest else c :: rest

/-- Characters of a JSON string literal after the opening quote, up to the
closing quote (no escape sequences occur in the inputs of interest). -/
def parseKeyChars : List Char → Option (String × List Char)
  | [] => none
  | c :: rest =>
      if c = '"' then some ("", rest)
      else
        match parseKeyChars rest with
        | some (s, r) => some (String.mk (c :: s.data), r)
        | none => none

/-- Split off a maximal run of ASCII digits. -/
def takeDigits : List Char → List Char × List Char
  | [] => ([], [])
  | c :: rest =>
      if c.isDigit then
        let (d, r) := takeDigits rest
        (c :: d, r)
      else ([], c :: rest)

/-- Value of a digit run. -/
def digitsToNat (l : List Char) : Nat :=
  l.foldl (fun acc c => acc * 10 + (c.toNat - 48)) 0

/-- Member list of a JSON object, starting right after the opening brace of
a non-empty object; `fuel` bounds the recursion. -/
def parsePairsAux : Nat → List Char → Option (List (String × Nat) × List Char)
  | 0, _ => none
  | fuel + 1, input =>
      match skipWs input with
      | '"' :: rest => do
          let (key, r1) ← parseKeyChars rest
          match skipWs r1 with
          | ':' :: r2 =>
              let (ds, r3) := takeDigits (skipWs r2)
              if ds = [] then none
              else do
                let v := digitsToNat ds
                match skipWs r3 with
                | ',' :: r4 => do
                    let (ps, r5) ← parsePairsAux fuel r4
                    pure ((key, v) :: ps, r5)
                | '\x7d' :: r4 => pure ([(key, v)], r4)
                | _ => none
          | _ => none
      | _ => none

/-- Model of serde_json parsing restricted to the fragment the `Config`
struct inhabits: a single flat object whose member values are unsigned
integer literals, with arbitrary interleaved whitespace and nothing but
whitespace after the closing brace.  Anything else is a parse error
(`none`), as in serde_json. -/
def parseJsonObject (s : String) : Option (List (String × Nat)) :=
  match skipWs s.data with
  | '\x7b' :: rest =>
      match skipWs rest with
      | '\x7d' :: r2 => if skipWs r2 = [] then some [] else none
      | _ =>
          match parsePairsAux (s.data.length + 1) rest with
          | some (ps, r) => if skipWs r = [] then some ps else none
          | none => none
  | _ => none

/-- Look up a required field: exactly one occurrence, as serde_json rejects
duplicates of a known field and requires every struct field. -/
def getField (ps : List (String × Nat)) (name : String) : Option Nat :=
  match ps.filter (fun p => p.1 = name) with
  | [p] => some p.2
  | _ => none

/-- A required `u64` field: present once and within range. -/
def getU64 (ps : List (String × Nat)) (name : String) : Option Nat := do
  let v ← getField ps name
  if v < 2 ^ 64 then some v else none

/-- A required `u32` field: present once and within range. -/
def getU32 (ps : List (String × Nat)) (name : String) : Option Nat := do
  let v ← getField ps name
  if v < 2 ^ 32 then some v else none

/-- Model of `serde_json::from_str::<Config>` on the fragment above:
parse the object, then read the ten required fields (any order; unknown
extra members are ignored, as serde does by default). -/
def parseConfig (s : String) : Option Config := do
  let ps ← parseJsonObject s
  let bmin ← getU64 ps "base_delay_min"
  let bmax ← getU64 ps "base_delay_max"
  let tmin ← getU64 ps "thinking_delay_min"
  let tmax ← getU64 ps "thinking_delay_max"
  let mp ← getU32 ps "mistake_probability"
  let cmin ← getU64 ps "correction_delay_min"
  let cmax ← getU64 ps "correction_delay_max"
  let lpp ← getU32 ps "long_pause_probability"
  let lmin ← getU64 ps "long_pause_delay_min"
  let lmax ← getU64 ps "long_pause_delay_max"
  pure
    { base_delay_min := bmin
      base_delay_max := bmax
      thinking_delay_min := tmin
      thinking_delay_max := tmax
      mistake_probability := mp
      correction_delay_min := cmin
      correction_delay_max := cmax
      long_pause_probability := lpp
      long_pause_delay_min := lmin
      long_pause_delay_max := lmax }

/-! ### The file-system-facing loaders -/

/-- Outcomes of the file-system operations the loaders perform, one run's
worth: whether each file exists, and what reading/writing it would return.
An `Except.error` models a failed `fs::read_to_string`/`fs::write`. -/
structure FsModel where
  config_exists : Bool
  read_config : Except String String
  write_config : Except String Unit
  text_exists : Bool
  read_text : Except String String
  write_text : Except String Unit

/-- The warning printed when the persisted config does not parse. -/
def invalidConfigWarning : String :=
  "Warning: Invalid or outdated config file. Creating new config..."

/-- Model of `ensure_config_exists` from main.rs over the file-system model; the
second component collects the lines printed.  `?` on a failed read or write
propagates the error to the caller. -/
def ensure_config_exists (fs : FsModel) :
    Except String (Config × List String) :=
  if fs.config_exists = false then
    match fs.write_config with
    | .error e => .error e
    | .ok _ => .ok (Config.default, [])
  else
    match fs.read_config with
    | .error e => .error e
    | .ok config_str =>
        match parseConfig config_str with
        | some config => .ok (config, [])
        | none =>
            match fs.write_config with
            | .error e => .error e
            | .ok _ => .ok (Config.default, [invalidConfigWarning])

/-- The default text written when the text file is absent or blank. -/
def defaultText : String := "Type your text here.\nType your text here."

/-- Model of `content.replace("\r\n", "\n")`: leftmost non-overlapping replacement. -/
def normalizeCrlf : List Char → List Char
  | [] => []
  | '\r' :: '\n' :: rest => '\n' :: normalizeCrlf rest
  | c :: rest => c :: normalizeCrlf rest

/-- Model of `ensure_text_file_exists` from main.rs over the file-system model
(`trim` on ASCII whitespace, CRLF normalization, trailing-newline strip). -/
def ensure_text_file_exists (fs : FsModel) : Except String String :=
  if fs.text_exists = false then
    match fs.write_text with
    | .error e => .error e
    | .ok _ => .ok defaultText
  else
    match fs.read_text with
    | .error e => .error e
    | .ok content =>
        if content.trim.isEmpty then
          match fs.write_text with
          | .error e => .error e
          | .ok _ => .ok defaultText
        else
          let normalized := normalizeCrlf content.data
          if normalized.getLast? = some '\n' then
            .ok (String.mk normalized.dropLast)
          else
            .ok (String.mk normalized)

/-! ### The start-delay prompt -/

/-- Digit run to a `u64` value, failing on empty input, a non-digit, or
overflow, as `u64::from_str` does. -/
def digitsValue (l : List Char) : Option Nat :=
  if l ≠ [] ∧ l.all Char.isDigit then
    let v := digitsToNat l
    if v < 2 ^ 64 then some v else none
  else none

/-- Model of `str::parse::<u64>()`: an optional leading `+`, then one or
more ASCII digits, nothing else, value within `u64` range. -/
def parseU64 (s : String) : Option Nat :=
  match s.data with
  | '+' :: rest => digitsValue rest
  | l => digitsValue l

/-- Model of `str::trim`: drop whitespace from both ends (Rust trims the
full Unicode White_Space set; the inputs of interest here are ASCII). -/
def trimChars (l : List Char) : List Char :=
  ((l.dropWhile Char.isWhitespace).reverse.dropWhile Char.isWhitespace).reverse

/-- Trim a string at both ends. -/
def strTrim (s : String) : String := String.mk (trimChars s.data)

/-- Model of `delay_secs.trim().parse().unwrap_or(5)` from `main`: the number of
seconds to wait, defaulting to 5 when the input does not parse. -/
def read_delay (input : String) : Nat :=
  (parseU64 (strTrim input)).getD 5


/-! ### Basic lemmas about the monadic plumbing and the draws -/

@[simp] theorem ok_bind {α β : Type} (a : α) (f : α → Except Unit β) :
    (Except.ok a : Except Unit α) >>= f = f a := rfl

@[simp] theorem err_bind {α β : Type} (f : α → Except Unit β) :
    (Except.error () : Except Unit α) >>= f = .error () := rfl

@[simp] theorem ok_map {α β : Type} (a : α) (f : α → β) :
    f <$> (Except.ok a : Except Unit α) = .ok (f a) := rfl

@[simp] theorem err_map {α β : Type} (f : α → β) :
    f <$> (Except.error () : Except Unit α) = .error () := rfl

theorem genRangeDraw_ok {r : Nat × Nat} {s : RngState} {d : Nat} {s' : RngState}
    (h : genRangeDraw r s = .ok (d, s')) :
    r.1 ≤ d ∧ d < r.2 ∧ s' = s.advance := by
  unfold genRangeDraw at h
  split at h
  · exact absurd h (by simp)
  · rename_i hlt
    injection h with h
    injection h with h1 h2
    subst h1; subst h2
    refine ⟨Nat.le_add_right _ _, ?_, rfl⟩
    have := Nat.mod_lt (s.val) (y := r.2 - r.1) (by omega)
    omega

theorem genRangeDraw_err {r : Nat × Nat} {s : RngState} (h : r.2 ≤ r.1) :
    genRangeDraw r s = .error () := by
  unfold genRangeDraw
  rw [if_pos h]

theorem genRangeDraw_pos {r : Nat × Nat} (s : RngState) (h : r.1 < r.2) :
    genRangeDraw r s = .ok (r.1 + s.val % (r.2 - r.1), s.advance) := by
  unfold genRangeDraw
  rw [if_neg (by omega)]

theorem genRatioDraw_pos {n d : Nat} (s : RngState) (h1 : 0 < d) (h2 : n ≤ d) :
    genRatioDraw n d s = .ok (decide (s.val % d < n), s.advance) := by
  unfold genRatioDraw
  rw [if_neg (by omega)]

/-! ### Structural lemmas about the engine loop -/

theorem step_cr (cfg : TypingConfig) (s : RngState) :
    type_text_step cfg '\r' s = .ok ([], s) := by
  simp [type_text_step]

theorem go_cons (cfg : TypingConfig) (c : Char) (cs : List Char) (s : RngState) :
    type_text_go cfg (c :: cs) s =
      (type_text_step cfg c s) >>= fun p =>
        (fun q => (p.1 ++ q.1, q.2)) <$> type_text_go cfg cs p.2 := rfl

theorem go_err {cfg : TypingConfig} {c : Char} {cs : List Char} {s : RngState}
    (h : type_text_step cfg c s = .error ()) :
    type_text_go cfg (c :: cs) s = .error () := by
  rw [go_cons, h, err_bind]

theorem step_err_base {cfg : TypingConfig} (hb : cfg.base_delay.2 ≤ cfg.base_delay.1)
    {c : Char} (hc : c ≠ '\r') (s : RngState) :
    type_text_step cfg c s = .error () := by
  unfold type_text_step
  rw [if_neg hc]
  cases h : char_branch cfg c s with
  | error e => cases e; simp [h]
  | ok p => simp [h, genRangeDraw_err hb]

theorem step_err_think {cfg : TypingConfig}
    (ht : cfg.thinking_delay.2 ≤ cfg.thinking_delay.1) (s : RngState) :
    type_text_step cfg '\n' s = .error () := by
  unfold type_text_step char_branch
  simp [genRangeDraw_err ht]

theorem step_err_corr {cfg : TypingConfig}
    (hcor : cfg.correction_delay.2 ≤ cfg.correction_delay.1)
    (hmp : 1 ≤ cfg.mistake_probability) {c : Char} (hc1 : c ≠ '\n') (hc2 : c ≠ '\r')
    (hws : c.isWhitespace = false) {e : Entropy} {k : Nat}
    (hhit : e (k + 1) % cfg.mistake_probability = 0) :
    type_text_step cfg c ⟨e, k⟩ = .error () := by
  unfold type_text_step char_branch type_character
  rw [if_neg hc2, if_neg hc1,
      genRatioDraw_pos _ (by omega) (by omega)]
  simp only [ok_bind, hws]
  rw [if_neg (by simp)]
  simp only [ok_bind, pure_bind]
  rw [genRatioDraw_pos _ (by omega) hmp]
  simp only [ok_bind, RngState.advance, RngState.val, hhit]
  rw [if_pos (by decide)]
  simp [genRangeDraw_err hcor]

theorem step_err_longpause {cfg : TypingConfig}
    (hlp : cfg.long_pause_delay.2 ≤ cfg.long_pause_delay.1)
    (hmp : 1 ≤ cfg.mistake_probability)
    (hlpp : cfg.long_pause_probability ≤ 100)
    {c : Char} (hpunct : longPauseChars.contains c = true)
    {e : Entropy} {k : Nat}
    (hmiss : e (k + 1) % cfg.mistake_probability ≠ 0)
    (hlong : e (k + 2) % 100 < cfg.long_pause_probability) :
    type_text_step cfg c ⟨e, k⟩ = .error () := by
  have hcs : c ≠ '\n' ∧ c ≠ '\r' ∧ c.isWhitespace = false := by
    simp [longPauseChars] at hpunct
    rcases hpunct with h | h | h | h | h | h <;> subst h <;>
      exact ⟨by decide, by decide, by decide⟩
  obtain ⟨hc1, hc2, hws⟩ := hcs
  unfold type_text_step char_branch type_character
  rw [if_neg hc2, if_neg hc1,
      genRatioDraw_pos _ (by omega) (by omega)]
  simp only [ok_bind, hws]
  rw [if_neg (by simp)]
  simp only [ok_bind, pure_bind]
  rw [genRatioDraw_pos _ (by omega) hmp]
  simp only [ok_bind, RngState.advance, RngState.val]
  rw [if_neg (by simp; omega)]
  simp only [ok_bind, pure_bind]
  rw [genRatioDraw_pos _ (by omega) hlpp]
  simp only [ok_bind, RngState.advance, RngState.val]
  rw [if_pos ⟨by simpa using hlong, hpunct⟩]
  simp [genRangeDraw_err hlp]

theorem go_err_first {cfg : TypingConfig}
    (hstep : ∀ (c : Char), c ≠ '\r' → ∀ s : RngState, type_text_step cfg c s = .error ()) :
    ∀ (l : List Char) (s : RngState), (∃ c ∈ l, c ≠ '\r') →
      type_text_go cfg l s = .error () := by
  intro l
  induction l with
  | nil => intro s h; simp at h
  | cons c cs ih =>
    intro s h
    by_cases hc : c = '\r'
    · subst hc
      rw [go_cons, step_cr, ok_bind]
      have hex : ∃ c ∈ cs, c ≠ '\r' := by
        rcases h with ⟨c', hc', hne⟩
        rcases List.mem_cons.mp hc' with h1 | h1
        · exact absurd h1 hne
        · exact ⟨c', h1, hne⟩
      rw [ih s hex]
      rfl
    · exact go_err (hstep c hc s)

/-- C10: typing is total only when every sampled delay range has a strictly
smaller lower bound.  A config with some delay range's lower bound equal to
its upper bound is permitted by the spec's invariant, but `gen_range` on the
corresponding empty `Range` panics (modelled as `Except.error ()`): (1) with
a degenerate base-delay range, `type_text` panics as soon as the text has any
non-carriage-return character; (2) with a degenerate thinking-delay range it
panics when the first character is a newline; (3) with a degenerate
correction-delay range it panics when the mistake trial succeeds on the
first character; (4) with a degenerate long-pause range it panics when the
long-pause trial succeeds on a first punctuation character.  In each case
the run ends in a panic instead of completing normally. -/
theorem c10_degenerate_range_panics :
    (∀ (cfg : TypingConfig) (t : String) (e : Entropy) (k : Nat),
      cfg.base_delay.2 ≤ cfg.base_delay.1 → (∃ c ∈ t.data, c ≠ '\r') →
      type_text cfg t ⟨e, k⟩ = .error ()) ∧
    (∀ (cfg : TypingConfig) (t : String) (e : Entropy) (k : Nat) (cs : List Char),
      cfg.thinking_delay.2 ≤ cfg.thinking_delay.1 → t.data = '\n' :: cs →
      type_text cfg t ⟨e, k⟩ = .error ()) ∧
    (∀ (cfg : TypingConfig) (t : String) (e : Entropy) (k : Nat) (c : Char) (cs : List Char),
      cfg.correction_delay.2 ≤ cfg.correction_delay.1 →
      1 ≤ cfg.mistake_probability →
      t.data = c :: cs → c ≠ '\n' → c ≠ '\r' → c.isWhitespace = false →
      e (k + 1) % cfg.mistake_probability = 0 →
      type_text cfg t ⟨e, k⟩ = .error ()) ∧
    (∀ (cfg : TypingConfig) (t : String) (e : Entropy) (k : Nat) (c : Char) (cs : List Char),
      cfg.long_pause_delay.2 ≤ cfg.long_pause_delay.1 →
      1 ≤ cfg.mistake_probability →
      cfg.long_pause_probability ≤ 100 →
      t.data = c :: cs → longPauseChars.contains c = true →
      e (k + 1) % cfg.mistake_probability ≠ 0 →
      e (k + 2) % 100 < cfg.long_pause_probability →
      type_text cfg t ⟨e, k⟩ = .error ()) := by
  refine ⟨?_, ?_, ?_, ?_⟩
  · intro cfg t e k hb hex
    exact go_err_first (fun c hc s => step_err_base hb hc s) t.data ⟨e, k⟩ hex
  · intro cfg t e k cs ht hdata
    unfold type_text
    rw [hdata]
    exact go_err (step_err_think ht ⟨e, k⟩)
  · intro cfg t e k c cs hcor hmp hdata hc1 hc2 hws hhit
    unfold type_text
    rw [hdata]
    exact go_err (step_err_corr hcor hmp hc1 hc2 hws hhit)
  · intro cfg t e k c cs hlp hmp hlpp hdata hpunct hmiss hlong
    unfold type_text
    rw [hdata]
    exact go_err (step_err_longpause hlp hmp hlpp hpunct hmiss hlong)

/-- Degenerate-base, degenerate-thinking, degenerate-correction and
degenerate-long-pause configs used to witness C10. -/
def cfgDegBase : TypingConfig :=
  { TypingConfig.default with base_delay := (20, 20) }

def cfgDegThink : TypingConfig :=
  { TypingConfig.default with thinking_delay := (500, 500) }

def cfgDegCorr : TypingConfig :=
  { TypingConfig.default with correction_delay := (300, 300) }

def cfgDegLong : TypingConfig :=
  { TypingConfig.default with long_pause_delay := (1000, 1000) }

/-- Witness for C10: each of the four degenerate-range cases, instantiated
at a concrete config, text and entropy stream. -/
theorem c10_degenerate_range_panics_witness :
    type_text cfgDegBase "a" ⟨fun _ => 0, 0⟩ = .error () ∧
    type_text cfgDegThink "\n" ⟨fun _ => 0, 0⟩ = .error () ∧
    type_text cfgDegCorr "a" ⟨fun _ => 0, 0⟩ = .error () ∧
    type_text cfgDegLong "." ⟨fun _ => 1, 0⟩ = .error () :=
  ⟨c10_degenerate_range_panics.1 cfgDegBase "a" _ 0 (by decide) ⟨'a', by decide, by decide⟩,
   c10_degenerate_range_panics.2.1 cfgDegThink "\n" _ 0 [] (by decide) rfl,
   c10_degenerate_range_panics.2.2.1 cfgDegCorr "a" _ 0 'a' [] (by decide) (by decide) rfl
     (by decide) (by decide) (by decide) (by decide),
   c10_degenerate_range_panics.2.2.2 cfgDegLong "." _ 0 '.' [] (by decide) (by decide)
     (by decide) rfl (by decide) (by decide) (by decide)⟩

/-- C4: an input consisting only of carriage returns produces no key actions
and no sleeps at all (each `'\r'` hits `continue` before any emission, sleep
or RNG draw), leaving even the RNG state untouched. -/
theorem go_all_cr (cfg : TypingConfig) :
    ∀ (l : List Char), (∀ c ∈ l, c = '\r') → ∀ s : RngState,
      type_text_go cfg l s = .ok ([], s) := by
  intro l
  induction l with
  | nil => intro _ s; rfl
  | cons c cs ih =>
    intro h s
    have hc : c = '\r' := h c (List.mem_cons_self c cs)
    subst hc
    rw [go_cons, step_cr, ok_bind, ih (fun c hc => h c (List.mem_cons_of_mem _ hc)) s]
    rfl

theorem c4_carriage_returns_skipped (cfg : TypingConfig) (t : String) (s : RngState)
    (h : ∀ c ∈ t.data, c = '\r') :
    type_text cfg t s = .ok ([], s) :=
  go_all_cr cfg t.data h s

/-- Witness for C4 at a concrete config, text and RNG state. -/
theorem c4_carriage_returns_skipped_witness :
    type_text TypingConfig.default "\r\r\r" ⟨fun _ => 0, 0⟩ = .ok ([], ⟨fun _ => 0, 0⟩) :=
  c4_carriage_returns_skipped TypingConfig.default "\r\r\r" _ (by decide)

/-- C1: on a printable, non-newline character whose 1-in-`mistake_probability`
trial succeeds, `type_character` performs exactly: emit the wrong character
chosen by the adjacency model (`get_nearby_key`), sleep a duration drawn from
the correction-delay range, emit exactly one backspace, then emit the
intended character; the final character emitted for the position is the
intended one. -/
theorem c1_mistake_correction_protocol (cfg : TypingConfig) (c : Char)
    (e : Entropy) (k : Nat)
    (hc1 : c ≠ '\n') (hc2 : c ≠ '\r')
    (hmp : 1 ≤ cfg.mistake_probability)
    (hhit : e k % cfg.mistake_probability = 0)
    (hcor : cfg.correction_delay.1 < cfg.correction_delay.2) :
    ∃ d s',
      type_character cfg c ⟨e, k⟩ =
        .ok ([.emit (get_nearby_key c ⟨e, k + 1⟩).1, .sleepCorrection d,
              .backspace, .emit c], s')
      ∧ cfg.correction_delay.1 ≤ d ∧ d < cfg.correction_delay.2
      ∧ lastEmittedChar [.emit (get_nearby_key c ⟨e, k + 1⟩).1, .sleepCorrection d,
              .backspace, .emit c] = some c := by
  unfold type_character
  rw [genRatioDraw_pos _ (by omega) hmp]
  simp only [ok_bind, RngState.advance, RngState.val, hhit]
  rw [if_pos (by decide)]
  rw [genRangeDraw_pos _ hcor]
  simp only [ok_bind, pure_bind]
  refine ⟨_, _, rfl, Nat.le_add_right _ _, ?_, by simp [lastEmittedChar]⟩
  have := Nat.mod_lt ((get_nearby_key c ⟨e, k + 1⟩).2.val)
    (y := cfg.correction_delay.2 - cfg.correction_delay.1) (by omega)
  omega

/-- Witness for C1: the default config, the letter `a`, and an entropy
stream on which the mistake trial succeeds immediately. -/
theorem c1_mistake_correction_protocol_witness :
    ∃ d s',
      type_character TypingConfig.default 'a' ⟨fun _ => 0, 0⟩ =
        .ok ([.emit (get_nearby_key 'a' ⟨fun _ => 0, 1⟩).1, .sleepCorrection d,
              .backspace, .emit 'a'], s')
      ∧ TypingConfig.default.correction_delay.1 ≤ d
      ∧ d < TypingConfig.default.correction_delay.2
      ∧ lastEmittedChar [.emit (get_nearby_key 'a' ⟨fun _ => 0, 1⟩).1, .sleepCorrection d,
              .backspace, .emit 'a'] = some 'a' :=
  c1_mistake_correction_protocol TypingConfig.default 'a' (fun _ => 0) 0
    (by decide) (by decide) (by decide) (by decide) (by decide)

theorem step_no_mistake {cfg : TypingConfig} {e : Entropy}
    (hmp : 1 ≤ cfg.mistake_probability)
    (hmiss : ∀ i, e i % cfg.mistake_probability ≠ 0)
    (hlpp : cfg.long_pause_probability = 0)
    (hbase : cfg.base_delay.1 < cfg.base_delay.2)
    (hthink : cfg.thinking_delay.1 < cfg.thinking_delay.2)
    (c : Char) (k : Nat) :
    ∃ tr k', type_text_step cfg c ⟨e, k⟩ = .ok (tr, ⟨e, k'⟩) ∧
      tr.filter isEmission = (specEmission c).toList := by
  by_cases hr : c = '\r'
  · subst hr
    exact ⟨[], k, step_cr cfg _, by simp [specEmission]⟩
  by_cases hn : c = '\n'
  · subst hn
    unfold type_text_step char_branch
    rw [if_neg hr, if_pos rfl, genRangeDraw_pos _ hthink]
    simp only [ok_bind, pure_bind, RngState.advance, RngState.val]
    rw [genRangeDraw_pos _ hbase]
    simp only [ok_bind, pure_bind, RngState.advance, RngState.val]
    exact ⟨_, k + 1 + 1, rfl, by simp [isEmission, specEmission]⟩
  · unfold type_text_step char_branch
    rw [if_neg hr, if_neg hn, genRatioDraw_pos _ (by omega) (by omega)]
    simp only [ok_bind, RngState.advance, RngState.val]
    by_cases hw : (decide (e k % 100 < 1) = true ∧ c.isWhitespace = true)
    · rw [if_pos hw, genRangeDraw_pos _ hthink]
      simp only [ok_bind, pure_bind, RngState.advance, RngState.val]
      unfold type_character
      rw [genRatioDraw_pos _ (by omega) hmp]
      simp only [ok_bind, RngState.advance, RngState.val]
      have hm := hmiss (k + 1 + 1)
      rw [if_neg (by simp; omega)]
      simp only [ok_bind, pure_bind]
      rw [genRatioDraw_pos _ (by omega) (by omega), hlpp]
      simp only [ok_bind, RngState.advance, RngState.val]
      rw [if_neg (by simp)]
      simp only [ok_bind, pure_bind]
      rw [genRangeDraw_pos _ hbase]
      simp only [ok_bind, pure_bind]
      refine ⟨_, _, rfl, ?_⟩
      simp [isEmission, specEmission, hr, hn]
    · rw [if_neg hw]
      simp only [ok_bind, pure_bind]
      unfold type_character
      rw [genRatioDraw_pos _ (by omega) hmp]
      simp only [ok_bind, RngState.advance, RngState.val]
      have hm := hmiss (k + 1)
      rw [if_neg (by simp; omega)]
      simp only [ok_bind, pure_bind]
      rw [genRatioDraw_pos _ (by omega) (by omega), hlpp]
      simp only [ok_bind, RngState.advance, RngState.val]
      rw [if_neg (by simp)]
      simp only [ok_bind, pure_bind]
      rw [genRangeDraw_pos _ hbase]
      simp only [ok_bind, pure_bind]
      refine ⟨_, _, rfl, ?_⟩
      simp [isEmission, specEmission, hr, hn]

theorem go_no_mistake {cfg : TypingConfig} {e : Entropy}
    (hmp : 1 ≤ cfg.mistake_probability)
    (hmiss : ∀ i, e i % cfg.mistake_probability ≠ 0)
    (hlpp : cfg.long_pause_probability = 0)
    (hbase : cfg.base_delay.1 < cfg.base_delay.2)
    (hthink : cfg.thinking_delay.1 < cfg.thinking_delay.2) :
    ∀ (l : List Char) (k : Nat),
      ∃ tr k', type_text_go cfg l ⟨e, k⟩ = .ok (tr, ⟨e, k'⟩) ∧
        tr.filter isEmission = l.filterMap specEmission := by
  intro l
  induction l with
  | nil => intro k; exact ⟨[], k, rfl, by simp⟩
  | cons c cs ih =>
    intro k
    obtain ⟨tr1, k1, hstep, hf1⟩ := step_no_mistake hmp hmiss hlpp hbase hthink c k
    obtain ⟨tr2, k2, hgo, hf2⟩ := ih k1
    refine ⟨tr1 ++ tr2, k2, ?_, ?_⟩
    · rw [go_cons, hstep, ok_bind, hgo, ok_map]
    · rw [List.filter_append, hf1, hf2]
      cases hsc : specEmission c <;> simp [List.filterMap_cons, hsc]

@[simp] theorem pure_eq_ok {α : Type} (a : α) : (pure a : Except Unit α) = .ok a := rfl

/-- The default config with the long-pause probability set to 0. -/
def cfgNoLongPause : TypingConfig :=
  { TypingConfig.default with long_pause_probability := 0 }

/-- C2 counterexample: on the input `"\r"` — one input character — the
engine emits zero actions, not one per input character, although no mistake
trial succeeds (none is even drawn) and the long-pause probability is 0:
the carriage return is skipped entirely. -/
theorem c2_counterexample :
    cfgNoLongPause.long_pause_probability = 0 ∧
    run cfgNoLongPause "\r" (fun _ => 1) = .ok [] ∧
    (([] : List Action).filter isEmission).length = 0 ∧
    "\r".data.length = 1 :=
  ⟨rfl, rfl, rfl, rfl⟩

/-- C2 (amended): if the mistake trial never succeeds, the long-pause
probability is 0, and the base/thinking delay ranges are non-empty, the run
completes and its key actions are exactly one emission per input character
other than carriage returns, in input order — the character itself for a
printable character, a Return click for a newline — with no backspaces. -/
theorem c2_per_char_emission (cfg : TypingConfig) (t : String) (e : Entropy) (k : Nat)
    (hmp : 1 ≤ cfg.mistake_probability)
    (hmiss : ∀ i, e i % cfg.mistake_probability ≠ 0)
    (hlpp : cfg.long_pause_probability = 0)
    (hbase : cfg.base_delay.1 < cfg.base_delay.2)
    (hthink : cfg.thinking_delay.1 < cfg.thinking_delay.2) :
    ∃ tr s', type_text cfg t ⟨e, k⟩ = .ok (tr, s') ∧
      tr.filter isEmission = t.data.filterMap specEmission := by
  obtain ⟨tr, k', h1, h2⟩ := go_no_mistake hmp hmiss hlpp hbase hthink t.data k
  exact ⟨tr, _, h1, h2⟩

/-- Witness for C2 (amended) on the text `"Hi.\n"` with an entropy stream
on which every mistake trial fails. -/
theorem c2_per_char_emission_witness :
    ∃ tr s', type_text cfgNoLongPause "Hi.\n" ⟨fun _ => 1, 0⟩ = .ok (tr, s') ∧
      tr.filter isEmission = "Hi.\n".data.filterMap specEmission :=
  c2_per_char_emission cfgNoLongPause "Hi.\n" (fun _ => 1) 0 (by decide)
    (fun i => by show (1 : Nat) % 10 ≠ 0; decide) rfl (by decide) (by decide)

/-- C3 counterexample: a carriage-return character gets no base-delay sleep
at all — the trace of typing `"\r"` is empty although the input has one
character, contradicting the claim that the base-delay sleep executes for
the carriage-return case too. -/
theorem c3_counterexample :
    run TypingConfig.default "\r" (fun _ => 0) = .ok [] ∧
    countBaseSleeps [] = 0 ∧
    "\r".data.length = 1 :=
  ⟨rfl, rfl, rfl⟩

/-- C3 (amended): for every character other than a carriage return, whenever
the loop body completes, its trace ends with a sleep drawn from the base
delay range — regardless of which branch (newline or printable) was taken;
a carriage return skips all handling, including the base-delay sleep. -/
theorem c3_base_sleep_every_char (cfg : TypingConfig) (c : Char) (s : RngState)
    (tr : List Action) (s' : RngState) :
    (c ≠ '\r' → type_text_step cfg c s = .ok (tr, s') →
      ∃ tr0 d, tr = tr0 ++ [.sleepBase d] ∧
        cfg.base_delay.1 ≤ d ∧ d < cfg.base_delay.2) ∧
    (c = '\r' → type_text_step cfg c s = .ok ([], s)) := by
  constructor
  · intro hc h
    unfold type_text_step at h
    rw [if_neg hc] at h
    cases hcb : char_branch cfg c s with
    | error u => cases u; rw [hcb, err_bind] at h; exact absurd h (by simp)
    | ok p =>
      obtain ⟨acts, s1⟩ := p
      simp only [hcb, ok_bind] at h
      cases hg : genRangeDraw cfg.base_delay s1 with
      | error u =>
        cases u
        rw [hg, err_bind] at h
        exact absurd h (by simp)
      | ok q =>
        obtain ⟨db, s2⟩ := q
        simp only [hg, ok_bind, pure_eq_ok, Except.ok.injEq, Prod.mk.injEq] at h
        obtain ⟨htr, -⟩ := h
        obtain ⟨h1, h2, -⟩ := genRangeDraw_ok hg
        exact ⟨acts, db, htr.symm, h1, h2⟩
  · intro hc
    subst hc
    exact step_cr cfg s

/-- Witness for C3 (amended): the letter `a` under the default config. -/
theorem c3_base_sleep_every_char_witness :
    ∃ tr0 d, [Action.emit 'a', Action.sleepBase 21] = tr0 ++ [.sleepBase d] ∧
      TypingConfig.default.base_delay.1 ≤ d ∧ d < TypingConfig.default.base_delay.2 :=
  (c3_base_sleep_every_char TypingConfig.default 'a' ⟨fun _ => 1, 0⟩
      [Action.emit 'a', Action.sleepBase 21] ⟨fun _ => 1, 4⟩).1 (by decide) rfl

theorem lookupNearby_mem :
    ∀ (L : List (Char × List Char)) (c : Char) (l : List Char),
      lookupNearby L c = some l → (c, l) ∈ L := by
  intro L
  induction L with
  | nil => intro c l h; simp [lookupNearby] at h
  | cons p rest ih =>
    intro c l h
    obtain ⟨k, v⟩ := p
    unfold lookupNearby at h
    split at h
    · rename_i hk
      injection h with h
      subst h; subst hk
      exact List.mem_cons_self _ _
    · exact List.mem_cons_of_mem _ (ih c l h)

theorem layout_entry_facts :
    ∀ p ∈ layout, p.2.length = 4 ∧
      ∀ x ∈ p.2, x.toLower = x ∧ x.toUpper.toLower = x := by decide

theorem getD_mem {α : Type} :
    ∀ (l : List α) (n : Nat) (d : α), n < l.length → l.getD n d ∈ l
  | x :: xs, 0, d, _ => by simp [List.getD]
  | x :: xs, n + 1, d, h => by
      have hm := getD_mem xs n d (by simpa using h)
      simpa [List.getD] using List.mem_cons_of_mem x (by simpa [List.getD] using hm)

/-- C5: adjacency substitution is closed over the table.  If the case-folded
character has a table entry, `get_nearby_key` picks an element of that
entry's neighbor list, reapplies the original character's case, and the
case-folded result is again a member of the list; a character whose
case-folded form is absent from the table is returned unchanged (and no RNG
draw is consumed). -/
theorem c5_adjacency_closed :
    (∀ (c : Char) (s : RngState) (l : List Char), nearby_keys c.toLower = some l →
      ∃ w ∈ l, (get_nearby_key c s).1 = (if c.isUpper then w.toUpper else w) ∧
        ((get_nearby_key c s).1).toLower ∈ l) ∧
    (∀ (c : Char) (s : RngState), nearby_keys c.toLower = none →
      get_nearby_key c s = (c, s)) := by
  constructor
  · intro c s l h
    have hmem := lookupNearby_mem layout c.toLower l h
    obtain ⟨hlen, hvals⟩ := layout_entry_facts _ hmem
    have hidx : s.val % l.length < l.length := by
      rw [hlen]; exact Nat.mod_lt _ (by omega)
    have hw : l.getD (s.val % l.length) c.toLower ∈ l := getD_mem l _ _ hidx
    refine ⟨l.getD (s.val % l.length) c.toLower, hw, ?_, ?_⟩
    · simp only [get_nearby_key, h]
    · obtain ⟨hlow, hup⟩ := hvals _ hw
      simp only [get_nearby_key, h]
      by_cases hu : c.isUpper
      · simp only [if_pos hu, hup]; exact hw
      · simp only [if_neg hu, hlow]; exact hw
  · intro c s h
    simp only [get_nearby_key, h]

/-- Witness for C5: the uppercase letter `A` (table entry, case reapplied)
and the digit `7` (no table entry, returned unchanged). -/
theorem c5_adjacency_closed_witness :
    (∃ w ∈ ['s', 'q', 'w', 'z'],
      (get_nearby_key 'A' ⟨fun _ => 0, 0⟩).1 = (if ('A').isUpper then w.toUpper else w) ∧
      ((get_nearby_key 'A' ⟨fun _ => 0, 0⟩).1).toLower ∈ ['s', 'q', 'w', 'z']) ∧
    get_nearby_key '7' ⟨fun _ => 0, 0⟩ = ('7', ⟨fun _ => 0, 0⟩) :=
  ⟨c5_adjacency_closed.1 'A' ⟨fun _ => 0, 0⟩ ['s', 'q', 'w', 'z'] (by decide),
   c5_adjacency_closed.2 '7' ⟨fun _ => 0, 0⟩ (by decide)⟩

/-- C6 counterexample: the claim that every listed neighbor is a lowercase
alphabetic character fails — the entry for `l` lists the semicolon, which is
not alphabetic (the entries for `p` and `q` similarly list `[`, `1`, `2`). -/
theorem c6_counterexample :
    nearby_keys 'l' = some ['k', ';', 'o', 'p'] ∧
    ';' ∈ ['k', ';', 'o', 'p'] ∧
    (';').isAlpha = false := by decide

/-- C6 (amended): the table maps each of the 26 lowercase letters to a list
of 2 to 4 (in fact exactly 4) neighbor keys, each key of the table is a
lowercase letter, and every listed neighbor is a lowercase letter or one of
the non-letter QWERTY-adjacent keys `;`, `,`, `[`, `1`, `2`. -/
theorem c6_table_shape :
    (∀ c ∈ "abcdefghijklmnopqrstuvwxyz".data, (nearby_keys c).isSome) ∧
    (∀ p ∈ layout, (p.1.isLower ∧ p.1.isAlpha) ∧
      (2 ≤ p.2.length ∧ p.2.length ≤ 4) ∧
      ∀ x ∈ p.2, (x.isLower ∧ x.isAlpha) ∨ x ∈ [';', ',', '[', '1', '2']) := by decide

/-- Witness for C6 (amended) at the entry for `a`. -/
theorem c6_table_shape_witness :
    (nearby_keys 'a').isSome ∧
    (('a').isLower ∧ ('a').isAlpha) ∧
    (2 ≤ (['s', 'q', 'w', 'z'] : List Char).length ∧
      (['s', 'q', 'w', 'z'] : List Char).length ≤ 4) ∧
    ∀ x ∈ (['s', 'q', 'w', 'z'] : List Char),
      (x.isLower ∧ x.isAlpha) ∨ x ∈ [';', ',', '[', '1', '2'] :=
  ⟨c6_table_shape.1 'a' (by decide),
   (c6_table_shape.2 ('a', ['s', 'q', 'w', 'z']) (by decide)).1,
   (c6_table_shape.2 ('a', ['s', 'q', 'w', 'z']) (by decide)).2.1,
   (c6_table_shape.2 ('a', ['s', 'q', 'w', 'z']) (by decide)).2.2⟩

/-- A file-system state in which the config file exists but reading it
fails with an I/O error. -/
def fsReadErr : FsModel :=
  { config_exists := true
    read_config := .error "io error"
    write_config := .ok ()
    text_exists := true
    read_text := .ok "text"
    write_text := .ok () }

/-- C7 counterexample: an I/O error while reading the existing config file
is not recovered locally — `ensure_config_exists` propagates it to the
caller (the `?` operator in the source), i.e. the loader does return a
fatal error. -/
theorem c7_counterexample :
    ensure_config_exists fsReadErr = .error "io error" := rfl

/-- C7 (amended): a malformed (unparseable) persisted config is recovered
locally — defaults are regenerated and persisted and the warning is printed,
with no error returned — provided the read and the regenerating write
succeed; I/O errors reading the config or the text source, by contrast,
propagate to the caller as fatal errors. -/
theorem c7_malformed_config_recovered :
    (∀ (fs : FsModel) (str : String),
      fs.config_exists = true → fs.read_config = .ok str → parseConfig str = none →
      fs.write_config = .ok () →
      ensure_config_exists fs = .ok (Config.default, [invalidConfigWarning])) ∧
    (∀ (fs : FsModel) (err : String),
      fs.config_exists = true → fs.read_config = .error err →
      ensure_config_exists fs = .error err) ∧
    (∀ (fs : FsModel) (err : String),
      fs.text_exists = true → fs.read_text = .error err →
      ensure_text_file_exists fs = .error err) := by
  refine ⟨?_, ?_, ?_⟩
  · intro fs str h1 h2 h3 h4
    simp [ensure_config_exists, h1, h2, h3, h4]
  · intro fs err h1 h2
    simp [ensure_config_exists, h1, h2]
  · intro fs err h1 h2
    simp [ensure_text_file_exists, h1, h2]

/-- A file-system state in which the persisted config exists and reads
fine but does not parse. -/
def fsBadConfig : FsModel :=
  { config_exists := true
    read_config := .ok "not json"
    write_config := .ok ()
    text_exists := true
    read_text := .ok "hello"
    write_text := .ok () }

/-- Witness for C7 (amended): a garbage config file is replaced by the
defaults with the warning printed. -/
theorem c7_malformed_config_recovered_witness :
    ensure_config_exists fsBadConfig = .ok (Config.default, [invalidConfigWarning]) :=
  c7_malformed_config_recovered.1 fsBadConfig "not json" rfl rfl rfl rfl

set_option maxRecDepth 8000 in
/-- C8: config persistence is idempotent — deserializing the just-written
pretty-printed default config succeeds (yielding the default config back),
and re-serializing the parsed value yields content byte-identical to what
was written. -/
theorem c8_config_roundtrip :
    (parseConfig (configToPrettyJson Config.default)).map configToPrettyJson =
      some (configToPrettyJson Config.default) := by
  have h : parseConfig (configToPrettyJson Config.default) = some Config.default := by
    decide
  rw [h, Option.map_some']

/-- C9: the start-delay prompt never fails — when the trimmed input parses
as a `u64`, the parsed value is used, and otherwise the default of 5
seconds is substituted; `read_delay` returns a plain number, so a parse
failure is never propagated as an error. -/
theorem c9_delay_default_on_unparseable (s : String) :
    (parseU64 (strTrim s) = none → read_delay s = 5) ∧
    (∀ n, parseU64 (strTrim s) = some n → read_delay s = n) := by
  constructor
  · intro h; simp [read_delay, h]
  · intro n h; simp [read_delay, h]

/-- Witness for C9: a non-numeric input falls back to 5 seconds, a numeric
one (with surrounding whitespace) parses. -/
theorem c9_delay_default_on_unparseable_witness :
    read_delay "abc" = 5 ∧ read_delay " 42 " = 42 :=
  ⟨(c9_delay_default_on_unparseable "abc").1 (by decide),
   (c9_delay_default_on_unparseable " 42 ").2 42 (by decide)⟩
end Typer
